import Mathlib

/-!
Shallow embedding of the prompt-factor-reviewer action core: the resilient
request client (src/api-client.ts) and the report rendering and verdict
engine (src/output-formatter.ts).  JavaScript strings are modelled as lists
of Unicode characters; machine integers do not occur (all numbers are small
counts and HTTP status codes).
-/

namespace Hosho

/-- JavaScript strings, modelled as lists of Unicode characters. -/
abbrev Str := List Char

/-- Coerce a Lean string literal into the JavaScript string model. -/
def str (s : String) : Str := s.data

/-- Render a natural number the way JavaScript string interpolation does. -/
def natStr (n : Nat) : Str := (toString n).data

/-- Render an integer the way JavaScript string interpolation does. -/
def intStr (i : Int) : Str := (toString i).data

/-- Whitespace as recognised by JavaScript trim and the regex class \s
(the ASCII part plus no-break space; exotic Unicode space separators are
omitted, none of the modelled behaviour distinguishes them). -/
def jsWs (c : Char) : Bool :=
  c = ' ' || c = '\t' || c = '\n' || c = '\r' || c = '\x0b' || c = '\x0c' || c = '\u00A0'

/-- JavaScript substring test, s.includes(pat). -/
def containsStr : Str → Str → Bool
  | [], pat => pat.isEmpty
  | c :: tail, pat => pat.isPrefixOf (c :: tail) || containsStr tail pat

/-! ## Resilient request client, src/api-client.ts -/

/-- MAX_RETRIES, api-client.ts line 5. -/
def MAX_RETRIES : Nat := 3

/-- BACKOFF_DELAYS_MS, api-client.ts line 6. -/
def BACKOFF_DELAYS_MS : List Nat := [5000, 10000, 20000]

/-- A JavaScript Error value: constructor name, message, and the dynamic
type tests consulted by isRetryableError. -/
structure JSError where
  name : Str
  message : Str
  isDOMException : Bool
  isTypeError : Bool
deriving DecidableEq, Repr

/-- A plain `new Error(msg)` value. -/
def plainError (msg : Str) : JSError :=
  ⟨ str ("Error"), msg, false, false⟩

/-- isRetryableError, api-client.ts lines 99-112. -/
def isRetryableError (e : JSError) : Bool :=
  (e.isDOMException && e.name == str ("AbortError"))
  || (e.isTypeError && containsStr e.message (str ("fetch")))
  || (containsStr e.message (str ("ECONNRESET"))
      || containsStr e.message (str ("ETIMEDOUT"))
      || containsStr e.message (str ("socket hang up"))
      || containsStr e.message (str ("network"))
      || e.name == str ("AbortError"))

/-- The JSON value produced by response.json, reduced to the one field the
client control flow reads (the message); the remaining payload is carried
opaquely by the success result and never inspected by callReviewAPI. -/
structure JsonBody where
  message : Option Str
deriving DecidableEq, Repr

/-- What one fetch attempt produces: an HTTP response carrying a status and
a parsed JSON body (none when the body fails to parse), or a thrown
network-level error. -/
inductive FetchOutcome where
  | httpResp (status : Nat) (body : Option JsonBody)
  | thrown (e : JSError)
deriving DecidableEq, Repr

/-- Error message of a 4xx response, api-client.ts line 61: the body message
field when present and non-empty (JavaScript truthiness), else the generic
text; a body that fails to parse is replaced by the empty object. -/
def msg4xx (body : Option JsonBody) (status : Nat) : Str :=
  match body with
  | some b =>
    match b.message with
    | some m => if m.isEmpty then str ("API error: ") ++ natStr status else m
    | none => str ("API error: ") ++ natStr status
  | none => str ("API error: ") ++ natStr status

/-- The error thrown when response.json fails on a success response. -/
def jsonParseError : JSError := plainError (str ("Unexpected end of JSON input"))

instance : DecidableEq (Except JSError JsonBody) := fun x y =>
  match x, y with
  | .ok a, .ok b => if h : a = b then isTrue (by rw [h]) else isFalse (by simp [h])
  | .error a, .error b => if h : a = b then isTrue (by rw [h]) else isFalse (by simp [h])
  | .ok _, .error _ => isFalse (by simp)
  | .error _, .ok _ => isFalse (by simp)

/-- Trace of one callReviewAPI invocation: how many attempts ran, which
backoff delays were slept, and the final outcome. -/
structure CallTrace where
  attempts : Nat
  sleeps : List Nat
  outcome : Except JSError JsonBody
deriving DecidableEq, Repr

/-- Result of a single loop iteration: terminate with a value or thrown
error, or sleep for a delay and retry. -/
inductive StepResult where
  | done (r : Except JSError JsonBody)
  | retryAfter (delay : Nat) (e : JSError)
deriving DecidableEq, Repr

/-- The catch block of callReviewAPI, api-client.ts lines 78-93: record the
error; when it is retryable and attempts remain, sleep the per-attempt
backoff and continue, otherwise rethrow. -/
def handleCatch (e : JSError) (attempt : Nat) : StepResult :=
  if isRetryableError e ∧ attempt < MAX_RETRIES - 1 then
    .retryAfter (BACKOFF_DELAYS_MS.getD attempt 0) e
  else .done (.error e)

/-- One iteration body of callReviewAPI, api-client.ts lines 48-93, applied
to the outcome of this attempt's fetch.  The 4xx branch throws an error that
its own catch block then classifies; the 5xx branch sleeps and continues
when attempts remain and otherwise throws (again through the catch block);
other statuses parse the body and return it. -/
def attemptStep (o : FetchOutcome) (attempt : Nat) : StepResult :=
  match o with
  | .thrown e => handleCatch e attempt
  | .httpResp status body =>
    if 400 ≤ status ∧ status < 500 then
      handleCatch (plainError (msg4xx body status)) attempt
    else if 500 ≤ status then
      let e := plainError (str ("API returned ") ++ natStr status)
      if attempt < MAX_RETRIES - 1 then
        .retryAfter (BACKOFF_DELAYS_MS.getD attempt 0) e
      else handleCatch e attempt
    else
      match body with
      | some b => .done (.ok b)
      | none => handleCatch jsonParseError attempt

/-- The retry loop of callReviewAPI, api-client.ts lines 44-96, fuelled by
the number of remaining attempts (attempt + fuel = MAX_RETRIES at every
call); the fuel-exhausted case is the unreachable line 96. -/
def callLoop (f : Nat → FetchOutcome) : Nat → Nat → Option JSError → CallTrace
  | 0, _, lastError =>
    ⟨0, [], .error (lastError.getD (plainError (str ("All retry attempts exhausted"))))⟩
  | fuel + 1, attempt, _ =>
    match attemptStep (f attempt) attempt with
    | .done r => ⟨1, [], r⟩
    | .retryAfter d e =>
      let rest := callLoop f fuel (attempt + 1) (some e)
      ⟨ rest.attempts + 1, d :: rest.sleeps, rest.outcome⟩

/-- callReviewAPI, api-client.ts lines 37-97, as a trace function over the
sequence of per-attempt fetch outcomes. -/
def callReviewAPI (f : Nat → FetchOutcome) : CallTrace :=
  callLoop f MAX_RETRIES 0 none

/-- The error recorded for a plain HTTP 500 response. -/
def err500 : JSError := plainError (str ("API returned 500"))

/-- A response sequence whose every answer is HTTP 500 with an empty body. -/
def all500 : Nat → FetchOutcome := fun _ => .httpResp 500 none

/-- Unfolding lemma for one retrying iteration of the loop. -/
theorem callLoop_retry (f : Nat → FetchOutcome) (fuel attempt : Nat)
    (le : Option JSError) (d : Nat) (e : JSError)
    (hs : attemptStep (f attempt) attempt = .retryAfter d e) :
    callLoop f (fuel + 1) attempt le =
      ⟨(callLoop f fuel (attempt + 1) (some e)).attempts + 1,
       d :: (callLoop f fuel (attempt + 1) (some e)).sleeps,
       (callLoop f fuel (attempt + 1) (some e)).outcome⟩ := by
  simp [callLoop, hs]

/-- Unfolding lemma for a terminating iteration of the loop. -/
theorem callLoop_done (f : Nat → FetchOutcome) (fuel attempt : Nat)
    (le : Option JSError) (r : Except JSError JsonBody)
    (hs : attemptStep (f attempt) attempt = .done r) :
    callLoop f (fuel + 1) attempt le = ⟨1, [], r⟩ := by
  simp [callLoop, hs]

/-- A response sequence whose single relevant answer is HTTP 404 with a
body whose message field contains the word network. -/
def resp404network : Nat → FetchOutcome :=
  fun _ => .httpResp 404 (some ⟨some (str ("network down"))⟩)

/-- A response sequence answering HTTP 404 with an ordinary server message. -/
def resp404plain : Nat → FetchOutcome :=
  fun _ => .httpResp 404 (some ⟨some (str ("invalid request"))⟩)

/-- C7: evaluation at the failing input.  A 404 whose body message contains
the substring network is thrown inside the try block, caught by the own
catch block, classified retryable by isRetryableError, and retried: three
attempts run with two backoff sleeps, contradicting the no-retry-4xx intent
documented at api-client.ts line 58. -/
theorem retry_4xx_network_message_eval :
    (callReviewAPI resp404network).attempts = 3 ∧
    (callReviewAPI resp404network).sleeps = [5000, 10000] ∧
    (callReviewAPI resp404network).outcome = .error (plainError (str ("network down"))) := by
  decide

/-- For an ordinary 4xx message the claimed behaviour does hold: one attempt,
no sleeps, and the server-provided message is thrown. -/
theorem retry_4xx_plain_message_one_attempt :
    (callReviewAPI resp404plain).attempts = 1 ∧
    (callReviewAPI resp404plain).sleeps = [] ∧
    (callReviewAPI resp404plain).outcome = .error (plainError (str ("invalid request"))) := by
  decide

/-- A 4xx with no usable body message throws the generic message. -/
theorem retry_4xx_generic_message_one_attempt :
    (callReviewAPI (fun _ => .httpResp 404 none)).attempts = 1 ∧
    (callReviewAPI (fun _ => .httpResp 404 none)).outcome =
      .error (plainError (str ("API error: 404"))) := by
  decide

/-- C1 counterexample: on three consecutive HTTP 500 responses the loop
sleeps only twice, 5000 ms and 10000 ms; the conjunction stated by the
claim, whose delay list is [5000, 10000, 20000], is false. -/
theorem retry_on_500_three_sleeps_cex :
    ¬ ((callReviewAPI all500).attempts = 3 ∧
       (callReviewAPI all500).sleeps = [5000, 10000, 20000] ∧
       (callReviewAPI all500).outcome = .error err500) := by
  decide

/-- C1 amended: when every attempt receives an HTTP 500 response, exactly
three attempts are made, the backoff delays slept between them are 5000 ms
and 10000 ms (the 20000 ms schedule entry belongs to the final attempt,
which throws instead of sleeping), and the error finally thrown is
"API returned 500". -/
theorem retry_on_500_schedule (f : Nat → FetchOutcome) (body : Nat → Option JsonBody)
    (h : ∀ i, i < MAX_RETRIES → f i = .httpResp 500 (body i)) :
    (callReviewAPI f).attempts = 3 ∧ (callReviewAPI f).sleeps = [5000, 10000] ∧
    (callReviewAPI f).outcome = .error err500 := by
  have h0 := h 0 (by decide)
  have h1 := h 1 (by decide)
  have h2 := h 2 (by decide)
  have st0 : attemptStep (f 0) 0 = .retryAfter 5000 err500 := by rw [h0]; rfl
  have st1 : attemptStep (f 1) 1 = .retryAfter 10000 err500 := by rw [h1]; rfl
  have st2 : attemptStep (f 2) 2 = .done (.error err500) := by rw [h2]; rfl
  have e0 : callReviewAPI f = callLoop f (2 + 1) 0 none := rfl
  rw [e0, callLoop_retry f 2 0 none 5000 err500 st0,
    callLoop_retry f 1 1 (some err500) 10000 err500 st1,
    callLoop_done f 0 2 (some err500) (.error err500) st2]
  exact ⟨rfl, rfl, rfl⟩

/-- C1 witness: the amended schedule theorem applied to the concrete
sequence of three HTTP 500 responses with empty bodies. -/
theorem retry_on_500_schedule_witness :
    (∀ i, i < MAX_RETRIES → all500 i = FetchOutcome.httpResp 500 ((fun _ => none) i)) ∧
    ((callReviewAPI all500).attempts = 3 ∧ (callReviewAPI all500).sleeps = [5000, 10000] ∧
     (callReviewAPI all500).outcome = .error err500) :=
  ⟨fun _ _ => rfl, retry_on_500_schedule all500 (fun _ => none) (fun _ _ => rfl)⟩

/-! ## Report data model, src/types.ts -/

/-- The change direction union of types.ts. -/
inductive ChangeDirection where
  | improved
  | noChange
  | worse
  | mixed
deriving DecidableEq, Repr

/-- The codeSnippet field of a Finding. -/
structure CodeSnippet where
  startLine : Int
  endLine : Int
  issue : Str
  code : Str
deriving DecidableEq, Repr

/-- Finding, types.ts. -/
structure Finding where
  findingNumber : Int
  description : Str
  codeSnippet : Option CodeSnippet
  consideration : Str
  rewrittenCode : Option Str
deriving DecidableEq, Repr

/-- AssessmentResult, types.ts. -/
structure AssessmentResult where
  assessmentId : Str
  question : Str
  result : Str
  justification : Str
deriving DecidableEq, Repr

/-- FactorEvaluationResult, types.ts. -/
structure FactorEvaluationResult where
  factorId : Str
  factorName : Str
  score : Int
  scoreLabel : Str
  tableRationale : Str
  findings : List Finding
  assessments : List AssessmentResult
  changeDirection : Option ChangeDirection
  changeRationale : Option Str
  changeDetails : Option (List Str)
deriving DecidableEq, Repr

/-- FactorInsight, types.ts. -/
structure FactorInsight where
  factorId : Str
  factorName : Str
  score : Int
  scoreLabel : Str
  findings : List Finding
  changeDirection : Option ChangeDirection
  changeRationale : Option Str
  changeDetails : Option (List Str)
deriving DecidableEq, Repr

/-- SynthesisResult, types.ts. -/
structure SynthesisResult where
  promptName : Str
  promptFile : Str
  promptDescription : Str
  overallScore : Str
  hasCriticalIssues : Bool
  factorInsights : List FactorInsight
deriving DecidableEq, Repr

/-- FactorDelta, types.ts. -/
structure FactorDelta where
  factorId : Str
  factorName : Str
  beforeScore : Option Int
  afterScore : Int
  delta : Int
  beforeLabel : Option Str
  afterLabel : Str
deriving DecidableEq, Repr

/-- ComparisonResult, types.ts. -/
structure ComparisonResult where
  promptFile : Str
  isNewFile : Bool
  synthesis : SynthesisResult
  factorResults : List FactorEvaluationResult
  deltas : List FactorDelta
  hasRegression : Bool
  hasCriticalIssue : Bool
  promptContent : Option Str
deriving DecidableEq, Repr

/-! ## String primitives used by the formatter -/

/-- JavaScript split over the newline character. -/
def splitLines : Str → List Str
  | [] => [[]]
  | c :: cs =>
    if c = '\n' then [] :: splitLines cs
    else
      match splitLines cs with
      | [] => [[c]]
      | l :: ls => (c :: l) :: ls

/-- JavaScript array join with the newline character. -/
def joinLines : List Str → Str
  | [] => []
  | [l] => l
  | l :: ls => l ++ '\n' :: joinLines ls

/-- The left half of JavaScript trim. -/
def trimLeft (s : Str) : Str := s.dropWhile jsWs

/-- The right half of JavaScript trim. -/
def trimRight (s : Str) : Str := (s.reverse.dropWhile jsWs).reverse

/-- JavaScript String.prototype.trim. -/
def trimStr (s : Str) : Str := trimRight (trimLeft s)

/-! ## Section-header classifier, output-formatter.ts lines 163-202 -/

/-- Removal of one trailing parenthesised annotation, the regex replace at
output-formatter.ts line 171: a suffix consisting of optional whitespace, an
opening parenthesis, one or more characters none of which is a closing
parenthesis, a closing parenthesis and optional trailing whitespace is
deleted (the leftmost admissible opening parenthesis is matched, as the
regex engine does). -/
def stripTrailingParen (l : Str) : Str :=
  match l.reverse.dropWhile jsWs with
  | ')' :: rest =>
    let span := rest.takeWhile (fun c => decide (c ≠ ')'))
    let keptR := rest.drop span.length
    let spanO := span.reverse
    let before := spanO.takeWhile (fun c => decide (c ≠ '('))
    match spanO.dropWhile (fun c => decide (c ≠ '(')) with
    | '(' :: content =>
      if content.isEmpty then l
      else keptR.reverse ++ (before.reverse.dropWhile jsWs).reverse
    | _ => l
  | _ => l

/-- The regex class [A-Z]. -/
def isUpperAZ (c : Char) : Bool := decide ('A' ≤ c ∧ c ≤ 'Z')

/-- The regex class [a-zA-Z]. -/
def isAlphaAZ (c : Char) : Bool :=
  decide (('A' ≤ c ∧ c ≤ 'Z') ∨ ('a' ≤ c ∧ c ≤ 'z'))

/-- The regex class \d. -/
def isDigit09 (c : Char) : Bool := decide ('0' ≤ c ∧ c ≤ '9')

/-- Test for one or more digits, a closing parenthesis, one or more
whitespace characters, then an ASCII capital: the pattern at line 176. -/
def matchNumberedSection (l : Str) : Bool :=
  let ds := l.takeWhile isDigit09
  !ds.isEmpty &&
    match l.drop ds.length with
    | ')' :: rest =>
      let ws := rest.takeWhile jsWs
      !ws.isEmpty &&
        match rest.drop ws.length with
        | c :: _ => isUpperAZ c
        | [] => false
    | _ => false

/-- Whether a nonempty string begins with an ASCII capital. -/
def leadUpper : Str → Bool
  | c :: _ => isUpperAZ c
  | [] => false

/-- Test for one to six hash marks followed by whitespace, handing the rest
of the line to the given continuation: the shared shape of the markdown
heading patterns at lines 181 and 186. -/
def matchHashesThen (l : Str) (k : Str → Bool) : Bool :=
  let hs := l.takeWhile (fun c => decide (c = '#'))
  decide (1 ≤ hs.length ∧ hs.length ≤ 6) &&
    (let rest := l.drop hs.length
     let ws := rest.takeWhile jsWs
     !ws.isEmpty && k (rest.drop ws.length))

/-- Test for a capitalised label of one to thirty letters or spaces ending
in a colon followed only by whitespace: the pattern at line 192. -/
def matchColonLabel (l : Str) : Bool :=
  match l with
  | c :: rest =>
    isUpperAZ c &&
      (let run := rest.takeWhile (fun d => isAlphaAZ d || jsWs d)
       decide (1 ≤ run.length ∧ run.length ≤ 30) &&
         match rest.drop run.length with
         | ':' :: tail => (tail.dropWhile jsWs).isEmpty
         | _ => false)
  | [] => false

/-- Test for a horizontal rule: three or more dashes, equals signs or
asterisks and nothing else, the patterns at line 197. -/
def isHorizontalRule (l : Str) : Bool :=
  (decide (3 ≤ l.length) && l.all (fun c => decide (c = '-')))
  || (decide (3 ≤ l.length) && l.all (fun c => decide (c = '=')))
  || (decide (3 ≤ l.length) && l.all (fun c => decide (c = '*')))

/-- isSectionHeader, output-formatter.ts lines 163-202. -/
def isSectionHeader (line : Str) : Bool :=
  if line ≠ trimStr line then false
  else
    let cleanedLine := trimStr (stripTrailingParen line)
    matchNumberedSection cleanedLine
    || matchHashesThen cleanedLine matchNumberedSection
    || matchHashesThen cleanedLine leadUpper
    || matchColonLabel cleanedLine
    || isHorizontalRule line

/-! ## Code snippet cleaner, output-formatter.ts lines 100-129 -/

/-- The per-line keep decision of cleanCodeSnippet: blank lines are kept,
lines whose trimmed form is a section header are dropped, all other lines
are kept verbatim. -/
def keepLine (line : Str) : Bool :=
  let trimmed := trimStr line
  trimmed.isEmpty || !isSectionHeader trimmed

/-- The kept lines of cleanCodeSnippet, lines 101-119. -/
def cleanKeptLines (code : Str) : List Str :=
  (splitLines code).filter keepLine

/-- cleanCodeSnippet, output-formatter.ts lines 100-129. -/
def cleanCodeSnippet (code : Str) : Str :=
  let result := trimStr (joinLines (cleanKeptLines code))
  if result.isEmpty && !(trimStr code).isEmpty then code else result

/-! ## Sanitizer and dynamic fence, output-formatter.ts lines 135-153 -/

/-- The replacement text for one backtick run of length n, line 137. -/
def escapedTicks (n : Nat) : Str := (List.replicate n (str ("\\`"))).flatten

/-- sanitizeInlineText, output-formatter.ts lines 135-138: every maximal run
of three or more backticks is replaced by backslash-escaped backticks. -/
def sanitizeInlineText : Str → Str
  | [] => []
  | c :: cs =>
    if c = '`' then
      let t := (cs.takeWhile (fun d => decide (d = '`'))).length
      (if 3 ≤ 1 + t then escapedTicks (1 + t) else List.replicate (1 + t) '`')
        ++ sanitizeInlineText (cs.drop t)
    else c :: sanitizeInlineText cs
termination_by s => s.length
decreasing_by
  · simp only [List.length_cons, List.length_drop]
    omega
  · simp only [List.length_cons]
    omega

/-- Scanner for maximal backtick runs: cur is the length of the backtick
run currently open to the left of the remaining input. -/
def runsGo : Str → Nat → List Nat
  | [], cur => if cur = 0 then [] else [cur]
  | c :: cs, cur =>
    if c = '`' then runsGo cs (cur + 1)
    else if cur = 0 then runsGo cs 0 else cur :: runsGo cs 0

/-- Lengths of the maximal backtick runs of a string, in order. -/
def backtickRuns (s : Str) : List Nat := runsGo s 0

/-- The match list of the backtick-run regex at line 146: the maximal
backtick runs of length at least three. -/
def fenceMatches (content : Str) : List Nat :=
  (backtickRuns content).filter (fun n => decide (3 ≤ n))

/-- getCodeFence, output-formatter.ts lines 144-153. -/
def getCodeFence (content : Str) : Str :=
  let maxRun := (fenceMatches content).foldl max 0
  List.replicate (max 3 (maxRun + 1)) '`'

/-- Length of the longest run of consecutive backticks (the k of the
dynamic-fence specification). -/
def longestBacktickRun (s : Str) : Nat := (backtickRuns s).foldl max 0

/-- The fenced code block rendered at output-formatter.ts line 415: fence,
newline, content, newline, fence. -/
def fencedBlock (content : Str) : Str :=
  getCodeFence content ++ '\n' :: (content ++ '\n' :: getCodeFence content)

/-! ## Verdict calculator and report renderer, src/output-formatter.ts -/

/-- BOT_MARKER, output-formatter.ts line 8. -/
def BOT_MARKER : Str := str ("<!-- prompt-factor-reviewer-api -->")

/-- PR_COMMENT_MAX_LENGTH, output-formatter.ts line 9. -/
def PR_COMMENT_MAX_LENGTH : Nat := 65000

/-- getTrafficLightEmoji, output-formatter.ts lines 15-19. -/
def getTrafficLightEmoji (score : Int) : Str :=
  if score ≤ 4 then str ("🔴") else if score ≤ 7 then str ("🟡") else str ("🟢")

/-- getChangeEmoji, output-formatter.ts lines 24-29. -/
def getChangeEmoji (direction : ChangeDirection) : Str :=
  match direction with
  | .improved => str ("✅ Improved")
  | .worse => str ("⚠️ Worse")
  | .mixed => str ("🔄 Mixed")
  | .noChange => str ("➖ No change")

/-- formatPRVerdict, output-formatter.ts lines 36-88. -/
def formatPRVerdict (factorInsights : List FactorInsight) : Str :=
  let isPRMode := factorInsights.any (fun f => f.changeDirection.isSome)
  if !isPRMode then []
  else
    let worseFactors := factorInsights.filter (fun f => decide (f.changeDirection = some .worse))
    let mixedFactors := factorInsights.filter (fun f => decide (f.changeDirection = some .mixed))
    let regressingFactors := worseFactors ++ mixedFactors
    if 0 < regressingFactors.length then
      let parts :=
        (if 0 < worseFactors.length then
          [List.intercalate (str (", ")) (worseFactors.map (fun f => f.factorName))
            ++ str (" regressed")]
         else [])
        ++ (if 0 < mixedFactors.length then
          [List.intercalate (str (", ")) (mixedFactors.map (fun f => f.factorName))
            ++ str (" had mixed changes (includes regressions)")]
         else [])
      let verdict := str ("**Review verdict:** ⛔ REJECT — ")
        ++ List.intercalate (str ("; ")) parts ++ str (".")
      let improvedFactors :=
        factorInsights.filter (fun f => decide (f.changeDirection = some .improved))
      let verdict :=
        if 0 < improvedFactors.length then
          verdict ++ str (" Remaining changes improve quality and would be accepted.")
        else verdict
      verdict ++ str ("\n\n")
    else
      let remainingIssues := (factorInsights.filter (fun f => decide (f.score ≤ 4))).length
      let opportunities :=
        (factorInsights.filter (fun f => decide (5 ≤ f.score ∧ f.score ≤ 7))).length
      let verdict := str ("**Review verdict:** ✅ APPROVE — Changes improve or maintain quality.")
      if 0 < remainingIssues ∨ 0 < opportunities then
        let parts :=
          (if 0 < remainingIssues then
            [natStr remainingIssues ++ str (" critical gap")
              ++ (if remainingIssues = 1 then [] else str ("s"))]
           else [])
          ++ (if 0 < opportunities then
            [natStr opportunities ++ str (" improvement opportunity")
              ++ (if opportunities = 1 then str ("y") else str ("ies"))]
           else [])
        verdict ++ str (" ") ++ List.intercalate (str (" and ")) parts
          ++ str (" remain for future work.") ++ str ("\n\n")
      else verdict ++ str ("\n\n")

/-- mergeFindings, output-formatter.ts lines 208-219. -/
def mergeFindings (factorInsights : List FactorInsight)
    (factorResults : List FactorEvaluationResult) : List FactorInsight :=
  factorInsights.map (fun insight =>
    match factorResults.find? (fun fr => decide (fr.factorId = insight.factorId)) with
    | some result =>
      ⟨insight.factorId, insight.factorName, insight.score, insight.scoreLabel,
       result.findings, insight.changeDirection, insight.changeRationale,
       insight.changeDetails⟩
    | none => insight)

/-- Whether a string begins with three backticks. -/
def startsTriple : Str → Bool
  | '`' :: '`' :: '`' :: _ => true
  | _ => false

/-- Index of the first occurrence of three consecutive backticks. -/
def findTripleIdx : Str → Option Nat
  | [] => none
  | c :: cs => if startsTriple (c :: cs) then some 0 else (findTripleIdx cs).map (· + 1)

/-- The non-greedy global replace at output-formatter.ts line 263 deleting
fenced code blocks: each match runs from an opening triple backtick to the
nearest triple backtick starting at least three characters later. -/
def stripCodeBlocks : Str → Str
  | [] => []
  | c :: cs =>
    if startsTriple (c :: cs) then
      match findTripleIdx ((c :: cs).drop 3) with
      | some j => stripCodeBlocks ((c :: cs).drop (3 + j + 3))
      | none => c :: cs
    else c :: stripCodeBlocks cs
termination_by s => s.length
decreasing_by
  · simp only [List.length_cons, List.length_drop]
    omega
  · simp only [List.length_cons]
    omega

/-- The global replace at output-formatter.ts line 264 deleting every
maximal run of three or more backticks. -/
def stripFenceRuns : Str → Str
  | [] => []
  | c :: cs =>
    if c = '`' then
      let t := (cs.takeWhile (fun d => decide (d = '`'))).length
      (if 3 ≤ 1 + t then [] else List.replicate (1 + t) '`') ++ stripFenceRuns (cs.drop t)
    else c :: stripFenceRuns cs
termination_by s => s.length
decreasing_by
  · simp only [List.length_cons, List.length_drop]
    omega
  · simp only [List.length_cons]
    omega

/-- formatPromptHeader, output-formatter.ts lines 260-268. -/
def formatPromptHeader (promptFile : Str) (description : Str) : Str :=
  let safeDescription := trimStr ((stripFenceRuns (stripCodeBlocks description)).map
    (fun c => if c = '\n' then ' ' else c))
  str ("## `") ++ promptFile ++ str ("`\n\n**Prompt overview:** ")
    ++ safeDescription ++ str ("\n\n")

/-- Pipe escaping for table cells, output-formatter.ts line 300. -/
def escapePipes (s : Str) : Str :=
  s.flatMap (fun c => if c = '|' then [ '\\', '|'] else [c])

/-- formatEvaluationTable, output-formatter.ts lines 270-311. -/
def formatEvaluationTable (factorResults : List FactorEvaluationResult)
    (factorInsights : List FactorInsight) : Str :=
  let isPRMode := factorInsights.any (fun f => f.changeDirection.isSome)
  let header :=
    if isPRMode then
      str ("### Evaluation\n\n")
        ++ str ("| Factor | Factor Assessment | Impact of PR | Rationale |\n")
        ++ str ("|--------|-------------------|--------------|-----------|")
    else
      str ("### Evaluation\n\n")
        ++ str ("| Factor | Factor Assessment | Rationale |\n")
        ++ str ("|--------|-------------------|-----------|")
  let rows := (factorResults.map (fun factor =>
    let emoji := getTrafficLightEmoji factor.score
    let insight := factorInsights.find? (fun f => decide (f.factorId = factor.factorId))
    let rationale :=
      match insight with
      | some ins =>
        match ins.changeRationale with
        | some cr =>
          if isPRMode && !cr.isEmpty then
            let separator := if cr.getLast? = some '.' then str (" ") else str (". ")
            cr ++ separator ++ factor.tableRationale
          else factor.tableRationale
        | none => factor.tableRationale
      | none => factor.tableRationale
    let safeRationale := escapePipes rationale
    let prCell :=
      match insight with
      | some ins =>
        match ins.changeDirection with
        | some d => if isPRMode then some (getChangeEmoji d) else none
        | none => none
      | none => none
    match prCell with
    | some changeEmoji =>
      str ("\n| **") ++ factor.factorName ++ str ("** | ") ++ emoji ++ str (" | ")
        ++ changeEmoji ++ str (" | ") ++ safeRationale ++ str (" |")
    | none =>
      str ("\n| **") ++ factor.factorName ++ str ("** | ") ++ emoji ++ str (" | ")
        ++ safeRationale ++ str (" |"))).flatten
  header ++ rows ++ str ("\n\n---\n\n")

/-- formatFactorFindings, output-formatter.ts lines 343-436. -/
def formatFactorFindings (factor : FactorInsight) (promptFile : Str) : Str :=
  if factor.findings.isEmpty && factor.changeDetails.isNone then []
  else
    let findingCount := factor.findings.length
    let hasChanges :=
      match factor.changeDetails with
      | some l => !l.isEmpty
      | none => false
    let label :=
      if hasChanges && decide (0 < findingCount) then
        natStr findingCount ++ str (" improvement")
          ++ (if findingCount = 1 then [] else str ("s")) ++ str (" + PR changes")
      else if hasChanges then str ("PR changes only")
      else if findingCount = 1 then str ("1 finding")
      else natStr findingCount ++ str (" findings")
    let isPRMode := factor.changeDirection.isSome
    let changesSection :=
      if isPRMode then
        str ("<h4>Changes in this PR</h4>\n\n")
          ++ (if hasChanges then
                ((factor.changeDetails.getD []).map
                  (fun change => str ("- ") ++ sanitizeInlineText change ++ str ("\n"))).flatten
              else str ("No observed changes in this PR.\n"))
          ++ str ("\n---\n\n")
      else []
    let findingsSection :=
      if 0 < factor.findings.length then
        (if isPRMode then str ("<h4>Further improvements</h4>\n\n") else [])
          ++ (factor.findings.map (fun finding =>
            let title :=
              match finding.codeSnippet with
              | some cs => if cs.issue.isEmpty then finding.description else cs.issue
              | none => finding.description
            let snippetPart :=
              match finding.codeSnippet with
              | some cs =>
                if !(trimStr cs.code).isEmpty then
                  let lineRef :=
                    if cs.startLine = cs.endLine then intStr cs.startLine
                    else intStr cs.startLine ++ str ("-") ++ intStr cs.endLine
                  let cleanedCode := cleanCodeSnippet cs.code
                  str ("**Assessment observation:** ") ++ sanitizeInlineText finding.description
                    ++ str (". Prompt text example from `") ++ promptFile ++ str (":")
                    ++ lineRef ++ str ("`\n\n")
                    ++ (if !(trimStr cleanedCode).isEmpty then
                          getCodeFence cleanedCode ++ str ("\n") ++ cleanedCode ++ str ("\n")
                            ++ getCodeFence cleanedCode ++ str ("\n\n")
                        else [])
                else []
              | none => []
            let rewritePart :=
              match finding.rewrittenCode with
              | some rc =>
                if !(trimStr rc).isEmpty then
                  str ("**Proposed prompt edit:**\n\n") ++ getCodeFence rc ++ str ("\n")
                    ++ rc ++ str ("\n") ++ getCodeFence rc ++ str ("\n\n")
                else []
              | none => []
            str ("<h4>") ++ intStr finding.findingNumber ++ str (". ") ++ title
              ++ str ("</h4>\n\n") ++ snippetPart
              ++ str ("**Consideration:** ") ++ sanitizeInlineText finding.consideration
              ++ str ("\n\n") ++ rewritePart ++ str ("---\n\n"))).flatten
      else []
    str ("<details>\n") ++ str ("<summary><strong>") ++ factor.factorName
      ++ str ("</strong> — ") ++ label ++ str ("</summary>\n\n") ++ str ("<br>\n\n")
      ++ changesSection ++ findingsSection ++ str ("</details>\n\n")

/-- formatRecommendations, output-formatter.ts lines 313-341. -/
def formatRecommendations (factorInsights : List FactorInsight) (promptFile : Str) : Str :=
  let critical := factorInsights.filter (fun f => decide (f.score ≤ 4))
  let opportunities := factorInsights.filter (fun f => decide (5 ≤ f.score ∧ f.score ≤ 7))
  if critical.isEmpty && opportunities.isEmpty then []
  else
    str ("### Considerations\n\n")
      ++ (if 0 < critical.length then
            str ("#### 🔴 Major Gaps\n\n")
              ++ (critical.map (fun f => formatFactorFindings f promptFile)).flatten
          else [])
      ++ (if 0 < opportunities.length then
            str ("#### 🟡 Opportunities to Improve\n\n")
              ++ (opportunities.map (fun f => formatFactorFindings f promptFile)).flatten
          else [])

/-- formatFileSection, output-formatter.ts lines 246-258. -/
def formatFileSection (comp : ComparisonResult) : Str :=
  let enrichedInsights := mergeFindings comp.synthesis.factorInsights comp.factorResults
  formatPromptHeader comp.promptFile comp.synthesis.promptDescription
    ++ formatEvaluationTable comp.factorResults enrichedInsights
    ++ formatPRVerdict enrichedInsights
    ++ formatRecommendations enrichedInsights comp.promptFile

/-- The truncation notice appended at output-formatter.ts line 240. -/
def truncationNotice : Str :=
  str ("\n\n---\n\n**Comment truncated.** See the Job Summary in the Actions tab for the full detailed report.\n")

/-- The comment body before the truncation step, formatPRComment lines
223-235. -/
def prCommentBody (comparisons : List ComparisonResult) : Str :=
  let fileCount := comparisons.length
  let factorCount :=
    match comparisons with
    | [] => 0
    | c :: _ => c.factorResults.length
  BOT_MARKER ++ str ("\n")
    ++ str ("# PROMPT REVIEW\n\n")
    ++ str ("Reviewed ") ++ natStr fileCount ++ str (" prompt file(s) against ")
    ++ natStr factorCount ++ str (" factors.\n\n")
    ++ str ("---\n\n")
    ++ (comparisons.map (fun comp => formatFileSection comp ++ str ("\n---\n\n"))).flatten

/-- formatPRComment, output-formatter.ts lines 223-244. -/
def formatPRComment (comparisons : List ComparisonResult) : Str :=
  let md := prCommentBody comparisons
  if PR_COMMENT_MAX_LENGTH < md.length then
    md.take (PR_COMMENT_MAX_LENGTH - 200) ++ truncationNotice
  else md

/-- C6 input. -/
def insNoChange6 : FactorInsight :=
  ⟨ str ("factor-1"), str ("Scope"), 6, str ("Needs Work"), [], some .noChange, none, none⟩

/-- C6 second input. -/
def insNoChange5 : FactorInsight :=
  ⟨ str ("factor-2"), str ("Clarity"), 5, str ("Needs Work"), [], some .noChange, none, none⟩

/-- C6: evaluation at the failing input.  In PR mode with no regression the
verdict is APPROVE, but the pluralisation of the opportunity clause is
broken: the base text already ends in opportunity and the code appends y or
ies, yielding opportunityy for one and opportunityies for several, where
the claim expects opportunity and opportunities. -/
theorem approve_pluralization_eval :
    formatPRVerdict [insNoChange6] =
      str ("**Review verdict:** ✅ APPROVE — Changes improve or maintain quality. 1 improvement opportunityy remain for future work.\n\n") ∧
    formatPRVerdict [insNoChange6, insNoChange5] =
      str ("**Review verdict:** ✅ APPROVE — Changes improve or maintain quality. 2 improvement opportunityies remain for future work.\n\n") := by
  decide

/-- C3 counterexample: the indented line of two spaces and a markdown
heading differs from its trimmed form, yet cleanCodeSnippet drops it, so it
is not kept verbatim; classification runs on the trimmed form, on which the
indentation guard of isSectionHeader never fires. -/
theorem indented_header_stripped_cex :
    (str ("  ## Foo")) ≠ trimStr (str ("  ## Foo")) ∧
    (str ("  ## Foo")) ∉ cleanKeptLines (str ("  ## Foo\nx")) ∧
    cleanCodeSnippet (str ("  ## Foo\nx")) = str ("x") := by
  decide

/-- C3 amended: the standalone classifier isSectionHeader does return false
on every line that differs from its trimmed form, but cleanCodeSnippet
applies the classifier to the trimmed form of each line, so a line is kept
exactly when it is blank or its trimmed form is not classified as a section
header; indentation itself does not protect a line. -/
theorem clean_lines_classified_by_trimmed :
    (∀ line : Str, line ≠ trimStr line → isSectionHeader line = false) ∧
    (∀ code line : Str, line ∈ splitLines code →
      (line ∈ cleanKeptLines code ↔
        ((trimStr line).isEmpty = true ∨ isSectionHeader (trimStr line) = false))) := by
  constructor
  · intro line h
    simp [isSectionHeader, h]
  · intro code line hmem
    unfold cleanKeptLines
    rw [List.mem_filter]
    unfold keepLine
    simp [hmem]

/-- C4: for every input with non-whitespace content, cleanCodeSnippet never
returns an empty result, and whenever the joined and trimmed kept lines are
empty (every non-blank line was classified as a header) the original input
is returned unchanged. -/
theorem clean_nonempty_safety (code : Str) (h : trimStr code ≠ []) :
    cleanCodeSnippet code ≠ [] ∧
    (trimStr (joinLines (cleanKeptLines code)) = [] → cleanCodeSnippet code = code) := by
  have hcode : code ≠ [] := by
    intro hc
    exact h (by rw [hc]; rfl)
  by_cases hr : trimStr (joinLines (cleanKeptLines code)) = []
  · have he : cleanCodeSnippet code = code := by
      unfold cleanCodeSnippet
      simp [hr, h]
    exact ⟨by rw [he]; exact hcode, fun _ => he⟩
  · have he : cleanCodeSnippet code = trimStr (joinLines (cleanKeptLines code)) := by
      unfold cleanCodeSnippet
      simp [hr]
    exact ⟨by rw [he]; exact hr, fun hh => absurd hh hr⟩

/-- C3 witness: the amended theorem applied to a raw indented heading (not
a header when classified directly) and to an indented code line (kept). -/
theorem clean_lines_classified_by_trimmed_witness :
    isSectionHeader (str (" ## A")) = false ∧
    (str ("  code")) ∈ cleanKeptLines (str ("  code")) :=
  ⟨clean_lines_classified_by_trimmed.1 (str (" ## A")) (by decide),
   (clean_lines_classified_by_trimmed.2 (str ("  code")) (str ("  code")) (by decide)).mpr
     (Or.inr (by decide))⟩

/-- C4 witness: the safety theorem applied to the input consisting of the
single all-header line Output: with a colon. -/
theorem clean_nonempty_safety_witness :
    trimStr (str ("Output:")) ≠ [] ∧
    (cleanCodeSnippet (str ("Output:")) ≠ [] ∧
     (trimStr (joinLines (cleanKeptLines (str ("Output:")))) = [] →
      cleanCodeSnippet (str ("Output:")) = str ("Output:"))) :=
  ⟨by decide, clean_nonempty_safety (str ("Output:")) (by decide)⟩

/-- Length of the truncation notice. -/
theorem truncationNotice_length : truncationNotice.length = 99 := by decide

/-- C8: when the pre-truncation report exceeds 65000 characters,
formatPRComment returns at most 65000 characters and the result ends with
the literal truncation notice; otherwise the report is returned without
truncation. -/
theorem pr_comment_truncation_bound (comparisons : List ComparisonResult) :
    if PR_COMMENT_MAX_LENGTH < (prCommentBody comparisons).length then
      (formatPRComment comparisons).length ≤ PR_COMMENT_MAX_LENGTH ∧
        truncationNotice <:+ formatPRComment comparisons
    else formatPRComment comparisons = prCommentBody comparisons := by
  by_cases h : PR_COMMENT_MAX_LENGTH < (prCommentBody comparisons).length
  · rw [if_pos h]
    have hf : formatPRComment comparisons =
        (prCommentBody comparisons).take (PR_COMMENT_MAX_LENGTH - 200) ++ truncationNotice := by
      unfold formatPRComment
      rw [if_pos h]
    constructor
    · rw [hf, List.length_append, List.length_take, truncationNotice_length]
      have h2 : PR_COMMENT_MAX_LENGTH = 65000 := rfl
      rw [h2] at h ⊢
      omega
    · rw [hf]
      exact List.suffix_append _ _
  · rw [if_neg h]
    unfold formatPRComment
    rw [if_neg h]

/-- Length of the hidden bot marker comment. -/
theorem botMarker_length : BOT_MARKER.length = 35 := by decide

/-- C10: for every list of comparison results, truncated or not, the string
returned by formatPRComment begins with the hidden bot marker comment, so
marker-based deduplication always finds it. -/
theorem pr_comment_starts_with_marker (comparisons : List ComparisonResult) :
    BOT_MARKER <+: formatPRComment comparisons := by
  have hpre : BOT_MARKER <+: prCommentBody comparisons := by
    unfold prCommentBody
    simp only [List.append_assoc]
    exact List.prefix_append _ _
  obtain ⟨t, ht⟩ := hpre
  unfold formatPRComment
  by_cases h : PR_COMMENT_MAX_LENGTH < (prCommentBody comparisons).length
  · rw [if_pos h, ← ht, List.take_append_eq_append_take]
    have h35 : BOT_MARKER.length ≤ PR_COMMENT_MAX_LENGTH - 200 := by decide
    rw [List.take_of_length_le h35, List.append_assoc]
    exact List.prefix_append _ _
  · rw [if_neg h, ← ht]
    exact List.prefix_append _ _

/-- The REJECT verdict with its rationale, as the specification words it:
worse factor names joined by commas and marked regressed, mixed factor
names marked as mixed changes including regressions, the clauses joined by
a semicolon and space, and a note about remaining improving changes
appended exactly when some factor improved. -/
def rejectVerdictSpec (factorInsights : List FactorInsight) : Str :=
  let worse := factorInsights.filter (fun f => decide (f.changeDirection = some .worse))
  let mixed := factorInsights.filter (fun f => decide (f.changeDirection = some .mixed))
  let improved := factorInsights.filter (fun f => decide (f.changeDirection = some .improved))
  let parts :=
    (if worse = [] then [] else
      [List.intercalate (str (", ")) (worse.map (fun f => f.factorName)) ++ str (" regressed")])
    ++ (if mixed = [] then [] else
      [List.intercalate (str (", ")) (mixed.map (fun f => f.factorName))
        ++ str (" had mixed changes (includes regressions)")])
  str ("**Review verdict:** ⛔ REJECT — ") ++ List.intercalate (str ("; ")) parts ++ str (".")
    ++ (if improved = [] then [] else
        str (" Remaining changes improve quality and would be accepted."))
    ++ str ("\n\n")

/-- A prefix agrees with the whole string on every index below its
length. -/
theorem prefix_idx {p s : Str} (h : p <+: s) (i : Nat) (hi : i < p.length) :
    s[i]? = p[i]? := by
  obtain ⟨t, rfl⟩ := h
  exact List.getElem?_append_left hi

/-- Anything extending the REJECT lead-in has the REJECT marker as a
prefix. -/
theorem reject_prefix_of_append (t : Str) :
    str ("**Review verdict:** ⛔ REJECT") <+: str ("**Review verdict:** ⛔ REJECT — ") ++ t := by
  have hsplit : str ("**Review verdict:** ⛔ REJECT") ++ str (" — ") =
      str ("**Review verdict:** ⛔ REJECT — ") := by decide
  exact ⟨ str (" — ") ++ t, by rw [← List.append_assoc, hsplit]⟩

/-- Nothing extending the APPROVE lead-in has the REJECT marker as a
prefix: the two differ at character index twenty. -/
theorem reject_not_prefix_of_approve (t : Str) :
    ¬ (str ("**Review verdict:** ⛔ REJECT") <+:
        str ("**Review verdict:** ✅ APPROVE — Changes improve or maintain quality.") ++ t) := by
  intro h
  have h1 := prefix_idx h 20 (by decide)
  rw [List.getElem?_append_left (by decide)] at h1
  revert h1
  decide

/-- In PR mode every verdict branch produces a nonempty string. -/
theorem formatPRVerdict_ne_nil (l : List FactorInsight)
    (hany : (l.any fun f => f.changeDirection.isSome) = true) :
    formatPRVerdict l ≠ [] := by
  unfold formatPRVerdict
  rw [hany]
  simp only [Bool.not_true, Bool.false_eq_true, if_false]
  split
  · apply List.append_ne_nil_of_right_ne_nil
    decide
  · split
    · apply List.append_ne_nil_of_right_ne_nil
      decide
    · apply List.append_ne_nil_of_right_ne_nil
      decide

/-- A filtered list is nonempty exactly when some member satisfies the
predicate. -/
theorem filter_length_pos_iff {α : Type} (p : α → Bool) (l : List α) :
    0 < (l.filter p).length ↔ ∃ a ∈ l, p a = true := by
  rw [List.length_pos]
  constructor
  · intro h
    by_contra hno
    push_neg at hno
    exact h (List.filter_eq_nil_iff.mpr fun a ha => by simpa using hno a ha)
  · rintro ⟨a, ha, hp⟩ hnil
    exact absurd hp (by simpa using List.filter_eq_nil_iff.mp hnil a ha)

/-- C5: formatPRVerdict returns the empty string exactly when no insight
carries a change direction; in PR mode the verdict is the REJECT verdict
exactly when some insight is worse or mixed, and in that case the output is
precisely the specification text: worse names joined by commas and marked
regressed, mixed names marked as mixed changes, clauses joined by a
semicolon, and a note about remaining improving changes appended exactly
when some insight improved. -/
theorem pr_verdict_reject_iff_regression (l : List FactorInsight) :
    (formatPRVerdict l = [] ↔ ∀ f ∈ l, f.changeDirection = none) ∧
    ((∃ f ∈ l, f.changeDirection ≠ none) →
      ((str ("**Review verdict:** ⛔ REJECT") <+: formatPRVerdict l) ↔
        ∃ f ∈ l, f.changeDirection = some ChangeDirection.worse ∨
          f.changeDirection = some ChangeDirection.mixed) ∧
      ((∃ f ∈ l, f.changeDirection = some ChangeDirection.worse ∨
          f.changeDirection = some ChangeDirection.mixed) →
        formatPRVerdict l = rejectVerdictSpec l)) := by
  have hany_iff : (l.any fun f => f.changeDirection.isSome) = true ↔
      ∃ f ∈ l, f.changeDirection ≠ none := by
    simp [List.any_eq_true, Option.isSome_iff_ne_none]
  have hregiff : (0 < ((l.filter fun f => decide (f.changeDirection = some ChangeDirection.worse))
        ++ (l.filter fun f => decide (f.changeDirection = some ChangeDirection.mixed))).length) ↔
      (∃ f ∈ l, f.changeDirection = some ChangeDirection.worse ∨
        f.changeDirection = some ChangeDirection.mixed) := by
    have hsplit : ∀ a b : Nat, 0 < a + b ↔ 0 < a ∨ 0 < b := fun a b => by omega
    rw [List.length_append, hsplit, filter_length_pos_iff, filter_length_pos_iff]
    simp only [decide_eq_true_eq]
    constructor
    · rintro (⟨f, hf, hw⟩ | ⟨f, hf, hm⟩)
      · exact ⟨f, hf, Or.inl hw⟩
      · exact ⟨f, hf, Or.inr hm⟩
    · rintro ⟨f, hf, hw | hm⟩
      · exact Or.inl ⟨f, hf, hw⟩
      · exact Or.inr ⟨f, hf, hm⟩
  constructor
  · constructor
    · intro h
      by_contra hall
      push_neg at hall
      exact formatPRVerdict_ne_nil l (hany_iff.mpr hall) h
    · intro hall
      have hanyf : (l.any fun f => f.changeDirection.isSome) = false := by
        rw [List.any_eq_false]
        intro f hf
        simp [hall f hf]
      unfold formatPRVerdict
      rw [hanyf]
      rfl
  · intro hex
    have hany := hany_iff.mpr hex
    by_cases hreg : ∃ f ∈ l, f.changeDirection = some ChangeDirection.worse ∨
        f.changeDirection = some ChangeDirection.mixed
    · have hlen := hregiff.mpr hreg
      have hEq : formatPRVerdict l = rejectVerdictSpec l := by
        unfold formatPRVerdict rejectVerdictSpec
        rw [hany]
        simp only [Bool.not_true, Bool.false_eq_true, if_false]
        rw [if_pos hlen]
        by_cases hw : (l.filter fun f => decide (f.changeDirection = some ChangeDirection.worse)) = []
          <;> by_cases hm : (l.filter fun f => decide (f.changeDirection = some ChangeDirection.mixed)) = []
          <;> by_cases hi : (l.filter fun f => decide (f.changeDirection = some ChangeDirection.improved)) = []
          <;> simp [hw, hm, hi, List.length_pos, List.append_assoc]
      have hpre : str ("**Review verdict:** ⛔ REJECT") <+: formatPRVerdict l := by
        rw [hEq]
        unfold rejectVerdictSpec
        simp only [List.append_assoc]
        exact reject_prefix_of_append _
      exact ⟨⟨fun _ => hreg, fun _ => hpre⟩, fun _ => hEq⟩
    · have hlen0 : ¬ 0 < ((l.filter fun f => decide (f.changeDirection = some ChangeDirection.worse))
          ++ (l.filter fun f => decide (f.changeDirection = some ChangeDirection.mixed))).length :=
        fun hc => hreg (hregiff.mp hc)
      have happrove : ∃ t, formatPRVerdict l =
          str ("**Review verdict:** ✅ APPROVE — Changes improve or maintain quality.") ++ t := by
        unfold formatPRVerdict
        rw [hany]
        simp only [Bool.not_true, Bool.false_eq_true, if_false]
        rw [if_neg hlen0]
        split
        · exact ⟨_, by simp only [List.append_assoc]; rfl⟩
        · exact ⟨_, rfl⟩
      obtain ⟨t, ht⟩ := happrove
      exact ⟨⟨fun hp => ((reject_not_prefix_of_approve t) (ht ▸ hp)).elim,
        fun hr => absurd hr hreg⟩, fun hr => absurd hr hreg⟩

/-- A concrete insight that regressed. -/
def insWorse : FactorInsight :=
  ⟨ str ("f1"), str ("Scope"), 3, str ("Critical"), [], some .worse, none, none⟩

/-- C5 witness: the verdict theorem applied to a single regressed
insight. -/
theorem pr_verdict_reject_iff_regression_witness :
    formatPRVerdict [insWorse] = rejectVerdictSpec [insWorse] ∧
    (str ("**Review verdict:** ⛔ REJECT") <+: formatPRVerdict [insWorse]) :=
  ⟨((pr_verdict_reject_iff_regression [insWorse]).2 (by decide)).2 (by decide),
   (((pr_verdict_reject_iff_regression [insWorse]).2 (by decide)).1).mpr (by decide)⟩

/-- There are n consecutive backticks at index i of s. -/
def backtickRunAt (s : Str) (i n : Nat) : Prop :=
  ∀ j, j < n → s[i + j]? = some '`'

instance (s : Str) (i n : Nat) : Decidable (backtickRunAt s i n) :=
  inferInstanceAs (Decidable (∀ j, j < n → s[i + j]? = some '`'))

/-- Folding max starting from a is the max of a and the fold from zero. -/
theorem foldl_max_init (l : List Nat) : ∀ a, l.foldl max a = max a (l.foldl max 0) := by
  induction l with
  | nil => intro a; simp
  | cons x l ih =>
    intro a
    simp only [List.foldl_cons]
    rw [ih (max a x), ih (max 0 x), Nat.zero_max, Nat.max_assoc]

/-- Unfolding max-fold over a cons cell. -/
theorem foldl_max_cons (x : Nat) (l : List Nat) :
    (x :: l).foldl max 0 = max x (l.foldl max 0) := by
  simp only [List.foldl_cons]
  rw [foldl_max_init, Nat.zero_max]

/-- The max of the runs of length at least three is the overall max when
that is at least three, and zero otherwise. -/
theorem foldl_max_filter3 (rs : List Nat) :
    (rs.filter fun n => decide (3 ≤ n)).foldl max 0 =
      if 3 ≤ rs.foldl max 0 then rs.foldl max 0 else 0 := by
  induction rs with
  | nil => simp
  | cons x l ih =>
    rw [foldl_max_cons]
    by_cases hx : 3 ≤ x
    · rw [List.filter_cons_of_pos (by simpa using hx), foldl_max_cons, ih]
      split <;> split <;> omega
    · rw [List.filter_cons_of_neg (by simpa using hx), ih]
      split <;> split <;> omega

/-- C2 part one in isolation: the fence length is max of three and one more
than the longest backtick run. -/
theorem getCodeFence_length (content : Str) :
    (getCodeFence content).length = max 3 (longestBacktickRun content + 1) := by
  unfold getCodeFence fenceMatches longestBacktickRun
  rw [List.length_replicate, foldl_max_filter3]
  split <;> omega

/-- A run of backticks prepended to another string extends the first run of
the scan. -/
theorem backtickRuns_cons_other (c : Char) (cs : Str) (h : ¬ c = '`') :
    backtickRuns (c :: cs) = backtickRuns cs := by
  simp [backtickRuns, runsGo, h]

/-- The scanner with an open run emits that run extended by the leading
backticks of the remaining input. -/
theorem runsGo_pos (cs : Str) : ∀ cur, 0 < cur →
    runsGo cs cur = (cur + (cs.takeWhile fun d => decide (d = '`')).length)
      :: backtickRuns (cs.drop (cs.takeWhile fun d => decide (d = '`')).length) := by
  induction cs with
  | nil =>
    intro cur hcur
    simp [runsGo, backtickRuns, Nat.ne_of_gt hcur]
  | cons c cs' ih =>
    intro cur hcur
    by_cases hc : c = '`'
    · subst hc
      rw [show runsGo ('`' :: cs') cur = runsGo cs' (cur + 1) from by simp [runsGo],
        ih (cur + 1) (by omega)]
      rw [List.takeWhile_cons_of_pos (by decide), List.length_cons, List.drop_succ_cons]
      simp only [List.cons.injEq]
      exact ⟨by omega, trivial⟩
    · rw [show runsGo (c :: cs') cur = cur :: runsGo cs' 0 from by
        simp [runsGo, hc, Nat.ne_of_gt hcur]]
      rw [List.takeWhile_cons_of_neg (by simpa using hc)]
      simp only [List.length_nil, List.drop_zero, Nat.add_zero]
      rw [backtickRuns_cons_other c cs' hc]
      rfl

/-- The run list of a string beginning with a backtick starts with the
length of its leading backtick run. -/
theorem backtickRuns_cons_tick (cs : Str) :
    backtickRuns ('`' :: cs) = (1 + (cs.takeWhile fun d => decide (d = '`')).length)
      :: backtickRuns (cs.drop (cs.takeWhile fun d => decide (d = '`')).length) := by
  rw [show backtickRuns ('`' :: cs) = runsGo cs 1 from by simp [backtickRuns, runsGo]]
  rw [runsGo_pos cs 1 (by omega)]

/-- Longest-run unfolding over a leading backtick. -/
theorem lbr_cons_tick (cs : Str) :
    longestBacktickRun ('`' :: cs) =
      max (1 + (cs.takeWhile fun d => decide (d = '`')).length)
        (longestBacktickRun (cs.drop (cs.takeWhile fun d => decide (d = '`')).length)) := by
  unfold longestBacktickRun
  rw [backtickRuns_cons_tick, foldl_max_cons]

/-- Longest-run unfolding over a leading non-backtick. -/
theorem lbr_cons_other (c : Char) (cs : Str) (h : ¬ c = '`') :
    longestBacktickRun (c :: cs) = longestBacktickRun cs := by
  unfold longestBacktickRun
  rw [backtickRuns_cons_other c cs h]

/-- The longest backtick run never shrinks when a character is prepended. -/
theorem lbr_le_cons (c : Char) (cs : Str) :
    longestBacktickRun cs ≤ longestBacktickRun (c :: cs) := by
  by_cases h : c = '`'
  · subst h
    match cs with
    | [] =>
      simp [longestBacktickRun, backtickRuns, runsGo]
    | d :: cs' =>
      by_cases hd : d = '`'
      · subst hd
        rw [lbr_cons_tick, lbr_cons_tick]
        rw [List.takeWhile_cons_of_pos (by decide), List.length_cons, List.drop_succ_cons]
        omega
      · rw [lbr_cons_tick]
        rw [List.takeWhile_cons_of_neg (by simpa using hd)]
        simp only [List.length_nil, List.drop_zero]
        omega
  · rw [lbr_cons_other c cs h]

/-- The character just past the take-while block fails the predicate. -/
theorem getElem?_takeWhile_length {p : Char → Bool} :
    ∀ (cs : Str) (c : Char), cs[(cs.takeWhile p).length]? = some c → p c = false := by
  intro cs
  induction cs with
  | nil => intro c h; simp at h
  | cons d cs ih =>
    intro c h
    rw [List.takeWhile_cons] at h
    by_cases hd : p d
    · rw [if_pos hd] at h
      simp only [List.length_cons, List.getElem?_cons_succ] at h
      exact ih c h
    · rw [if_neg hd] at h
      simp only [List.length_nil, List.getElem?_cons_zero, Option.some.injEq] at h
      rw [Bool.not_eq_true] at hd
      rwa [h] at hd

/-- No backtick run lives in the empty string. -/
theorem backtickRunAt_nil (i n : Nat) (h : backtickRunAt [] i n) : n = 0 := by
  match n with
  | 0 => rfl
  | m + 1 =>
    have hx := h 0 (by omega)
    simp at hx

/-- Shifting a run across a cons cell. -/
theorem backtickRunAt_cons_succ {c : Char} {cs : Str} {i n : Nat}
    (h : backtickRunAt (c :: cs) (i + 1) n) : backtickRunAt cs i n := by
  intro j hj
  have hh := h j hj
  rwa [show i + 1 + j = (i + j) + 1 from by omega, List.getElem?_cons_succ] at hh

/-- A run at the start of a string is bounded by the leading maximal run. -/
theorem backtickRunAt_zero_le (cs : Str) (n : Nat)
    (h : backtickRunAt ('`' :: cs) 0 n) :
    n ≤ 1 + (cs.takeWhile fun d => decide (d = '`')).length := by
  by_contra hlt
  push_neg at hlt
  have h1 := h (1 + (cs.takeWhile fun d => decide (d = '`')).length) (by omega)
  rw [Nat.zero_add,
    show 1 + (cs.takeWhile fun d => decide (d = '`')).length
      = (cs.takeWhile fun d => decide (d = '`')).length + 1 from by omega,
    List.getElem?_cons_succ] at h1
  have hfalse := getElem?_takeWhile_length cs '`' h1
  simp at hfalse

/-- Any run of consecutive backticks is bounded by the longest run. -/
theorem backtickRunAt_le_lbr :
    ∀ (k : Nat) (s : Str), s.length ≤ k →
      ∀ i n, backtickRunAt s i n → n ≤ longestBacktickRun s := by
  intro k
  induction k with
  | zero =>
    intro s hs i n h
    have hnil : s = [] := List.eq_nil_of_length_eq_zero (Nat.le_zero.mp hs)
    subst hnil
    rw [backtickRunAt_nil i n h]
    exact Nat.zero_le _
  | succ k ih =>
    intro s hs i n h
    match s with
    | [] =>
      rw [backtickRunAt_nil i n h]
      exact Nat.zero_le _
    | c :: cs =>
      match i with
      | ii + 1 =>
        have h' := backtickRunAt_cons_succ h
        have hle := ih cs (by simp only [List.length_cons] at hs; omega) ii n h'
        exact le_trans hle (lbr_le_cons c cs)
      | 0 =>
        match n with
        | 0 => exact Nat.zero_le _
        | m + 1 =>
          have hc : c = '`' := by
            have h0 := h 0 (by omega)
            simpa using h0
          subst hc
          have hb := backtickRunAt_zero_le cs (m + 1) h
          rw [lbr_cons_tick]
          exact le_trans hb (Nat.le_max_left _ _)

/-- In a block built as fence, newline, content, newline, fence whose fence
is all backticks and strictly longer than every backtick run of the
content, a run of fence length starting at or after the end of the opening
fence exists only at the start of the closing fence. -/
theorem runAt_block_iff (F content : Str) (hF : ∀ j, j < F.length → F[j]? = some '`')
    (hlbr : longestBacktickRun content < F.length) (hpos : 0 < F.length) :
    ∀ i, F.length ≤ i →
      (backtickRunAt (F ++ '\n' :: (content ++ '\n' :: F)) i F.length ↔
        i = F.length + content.length + 2) := by
  have hlen : (F ++ '\n' :: (content ++ '\n' :: F)).length
      = F.length + content.length + 2 + F.length := by
    simp only [List.length_append, List.length_cons]
    omega
  have b1 : (F ++ '\n' :: (content ++ '\n' :: F))[F.length]? = some '\n' := by
    rw [List.getElem?_append_right (le_refl _)]
    simp
  have b2 : ∀ t, t < content.length →
      (F ++ '\n' :: (content ++ '\n' :: F))[F.length + 1 + t]? = content[t]? := by
    intro t ht
    rw [List.getElem?_append_right (by omega)]
    rw [show F.length + 1 + t - F.length = t + 1 from by omega]
    rw [List.getElem?_cons_succ, List.getElem?_append_left ht]
  have b3 : (F ++ '\n' :: (content ++ '\n' :: F))[F.length + content.length + 1]? = some '\n' := by
    rw [List.getElem?_append_right (by omega)]
    rw [show F.length + content.length + 1 - F.length = content.length + 1 from by omega]
    rw [List.getElem?_cons_succ, List.getElem?_append_right (le_refl _)]
    simp
  have b4 : ∀ j, j < F.length →
      (F ++ '\n' :: (content ++ '\n' :: F))[F.length + content.length + 2 + j]? = some '`' := by
    intro j hj
    rw [List.getElem?_append_right (by omega)]
    rw [show F.length + content.length + 2 + j - F.length = content.length + 1 + j + 1
      from by omega]
    rw [List.getElem?_cons_succ, List.getElem?_append_right (by omega)]
    rw [show content.length + 1 + j - content.length = j + 1 from by omega]
    rw [List.getElem?_cons_succ]
    exact hF j hj
  intro i hi
  constructor
  · intro hrun
    by_contra hne
    rcases Nat.lt_trichotomy i (F.length + content.length + 2) with hlt | heq | hgt
    · by_cases hwin : F.length + content.length + 1 < i + F.length
      · have hj : F.length + content.length + 1 - i < F.length := by omega
        have hx := hrun (F.length + content.length + 1 - i) hj
        rw [show i + (F.length + content.length + 1 - i) = F.length + content.length + 1
          from by omega, b3] at hx
        simp at hx
      · rcases Nat.eq_or_lt_of_le hi with hiL | hiL
        · have hx := hrun 0 (by omega)
          rw [show i + 0 = F.length from by omega, b1] at hx
          simp at hx
        · have hcont : backtickRunAt content (i - (F.length + 1)) F.length := by
            intro j hj
            have hh := hrun j hj
            rw [show i + j = F.length + 1 + (i - (F.length + 1) + j) from by omega] at hh
            rw [b2 (i - (F.length + 1) + j) (by omega)] at hh
            exact hh
          have hle := backtickRunAt_le_lbr content.length content (le_refl _) _ _ hcont
          omega
    · exact hne heq
    · have hx := hrun (F.length - 1) (by omega)
      rw [List.getElem?_eq_none (by rw [hlen]; omega)] at hx
      simp at hx
  · intro heq
    subst heq
    intro j hj
    exact b4 j hj

/-- C2: the fence chosen by getCodeFence has exactly max(3, k+1) backticks,
where k is the length of the longest backtick run of the content, and in
the rendered block (fence, newline, content, newline, fence) a run of fence
length starting at or after the end of the opening fence occurs exactly at
the start of the intended closing fence. -/
theorem fence_length_and_closing_unique (content : Str) :
    (getCodeFence content).length = max 3 (longestBacktickRun content + 1) ∧
    (∀ i, (getCodeFence content).length ≤ i →
      (backtickRunAt (fencedBlock content) i (getCodeFence content).length ↔
        i = (getCodeFence content).length + content.length + 2)) := by
  have hflen := getCodeFence_length content
  refine ⟨hflen, ?_⟩
  have hF : ∀ j, j < (getCodeFence content).length → (getCodeFence content)[j]? = some '`' := by
    intro j hj
    unfold getCodeFence at hj ⊢
    rw [List.length_replicate] at hj
    exact List.getElem?_replicate_of_lt hj
  have hlbr : longestBacktickRun content < (getCodeFence content).length := by omega
  have hpos : 0 < (getCodeFence content).length := by omega
  exact runAt_block_iff (getCodeFence content) content hF hlbr hpos

/-- C2 witness: the fence theorem applied to content holding a run of three
backticks; the fence has four backticks and the closing fence starts at
index eleven, the only admissible index. -/
theorem fence_length_and_closing_unique_witness :
    (getCodeFence (str ("a```b"))).length = max 3 (longestBacktickRun (str ("a```b")) + 1) ∧
    (backtickRunAt (fencedBlock (str ("a```b"))) 11 (getCodeFence (str ("a```b"))).length ↔
      11 = (getCodeFence (str ("a```b"))).length + (str ("a```b")).length + 2) :=
  ⟨(fence_length_and_closing_unique (str ("a```b"))).1,
   (fence_length_and_closing_unique (str ("a```b"))).2 11 (by decide)⟩

/-- JavaScript split never returns an empty array. -/
theorem splitLines_ne_nil (s : Str) : splitLines s ≠ [] := by
  match s with
  | [] => simp [splitLines]
  | c :: cs =>
    unfold splitLines
    by_cases h : c = '\n'
    · simp [h]
    · simp only [if_neg h]
      match hsp : splitLines cs with
      | [] => simp
      | l :: ls => simp

/-- Unfolding split over a non-newline head. -/
theorem splitLines_cons_other (c : Char) (cs : Str) (h : ¬ c = '\n') :
    splitLines (c :: cs) =
      match splitLines cs with
      | [] => [[c]]
      | l :: ls => (c :: l) :: ls := by
  conv_lhs => unfold splitLines
  rw [if_neg h]

/-- A character prepended to the first line moves across the join. -/
theorem joinLines_cons_head (c : Char) (l : Str) (ls : List Str) :
    joinLines ((c :: l) :: ls) = c :: joinLines (l :: ls) := by
  match ls with
  | [] => rfl
  | l2 :: ls2 => rfl

/-- Lines produced by split contain no newline. -/
theorem no_newline_mem : ∀ (s x : Str), x ∈ splitLines s → '\n' ∉ x := by
  intro s
  induction s with
  | nil =>
    intro x hx
    simp [splitLines] at hx
    subst hx
    simp
  | cons c cs ih =>
    intro x hx
    unfold splitLines at hx
    by_cases h : c = '\n'
    · rw [if_pos h] at hx
      rcases List.mem_cons.mp hx with h1 | h1
      · subst h1; simp
      · exact ih x h1
    · rw [if_neg h] at hx
      rcases hsp : splitLines cs with _ | ⟨l, ls⟩
      · exact absurd hsp (splitLines_ne_nil cs)
      · rw [hsp] at hx
        rcases List.mem_cons.mp hx with h1 | h1
        · subst h1
          intro hmem
          rcases List.mem_cons.mp hmem with h2 | h2
          · exact h h2.symm
          · exact ih l (by rw [hsp]; exact List.mem_cons_self l ls) h2
        · exact ih x (by rw [hsp]; exact List.mem_cons.mpr (Or.inr h1))

/-- Every character of a line occurs in the split string. -/
theorem mem_splitLines_chars : ∀ (s x : Str), x ∈ splitLines s → ∀ c ∈ x, c ∈ s := by
  intro s
  induction s with
  | nil =>
    intro x hx c hc
    simp [splitLines] at hx
    subst hx
    simp at hc
  | cons d cs ih =>
    intro x hx c hc
    unfold splitLines at hx
    by_cases h : d = '\n'
    · rw [if_pos h] at hx
      rcases List.mem_cons.mp hx with h1 | h1
      · subst h1; simp at hc
      · exact List.mem_cons.mpr (Or.inr (ih x h1 c hc))
    · rw [if_neg h] at hx
      rcases hsp : splitLines cs with _ | ⟨l, ls⟩
      · exact absurd hsp (splitLines_ne_nil cs)
      · rw [hsp] at hx
        rcases List.mem_cons.mp hx with h1 | h1
        · subst h1
          rcases List.mem_cons.mp hc with h2 | h2
          · exact List.mem_cons.mpr (Or.inl h2)
          · exact List.mem_cons.mpr (Or.inr
              (ih l (by rw [hsp]; exact List.mem_cons_self l ls) c h2))
        · exact List.mem_cons.mpr (Or.inr
            (ih x (by rw [hsp]; exact List.mem_cons.mpr (Or.inr h1)) c hc))

/-- Joining the lines of a string restores the string. -/
theorem joinLines_splitLines : ∀ s : Str, joinLines (splitLines s) = s := by
  intro s
  induction s with
  | nil => rfl
  | cons c cs ih =>
    unfold splitLines
    by_cases h : c = '\n'
    · rw [if_pos h]
      rcases hsp : splitLines cs with _ | ⟨l, ls⟩
      · exact absurd hsp (splitLines_ne_nil cs)
      · have hjoin : joinLines (l :: ls) = cs := by rw [← hsp]; exact ih
        rw [show joinLines ([] :: l :: ls) = [] ++ '\n' :: joinLines (l :: ls) from rfl,
          hjoin, h]
        rfl
    · rw [if_neg h]
      rcases hsp : splitLines cs with _ | ⟨l, ls⟩
      · exact absurd hsp (splitLines_ne_nil cs)
      · have hjoin : joinLines (l :: ls) = cs := by rw [← hsp]; exact ih
        show joinLines ((c :: l) :: ls) = c :: cs
        rw [joinLines_cons_head, hjoin]

/-- A newline-free string splits into just itself. -/
theorem splitLines_of_no_newline : ∀ l : Str, '\n' ∉ l → splitLines l = [l] := by
  intro l
  induction l with
  | nil => intro _; rfl
  | cons c cs ih =>
    intro h
    unfold splitLines
    rw [if_neg (fun hc => h (by rw [hc]; exact List.mem_cons_self '\n' cs))]
    rw [ih (fun hm => h (List.mem_cons.mpr (Or.inr hm)))]

/-- Splitting after an explicit newline separator. -/
theorem splitLines_append_newline : ∀ (l rest : Str), '\n' ∉ l →
    splitLines (l ++ '\n' :: rest) = l :: splitLines rest := by
  intro l
  induction l with
  | nil =>
    intro rest _
    simp [splitLines]
  | cons c cs ih =>
    intro rest h
    have hc : ¬ c = '\n' := fun hc => h (by rw [hc]; exact List.mem_cons_self '\n' cs)
    rw [show (c :: cs) ++ '\n' :: rest = c :: (cs ++ '\n' :: rest) from rfl,
      splitLines_cons_other c _ hc,
      ih rest (fun hm => h (List.mem_cons.mpr (Or.inr hm)))]

/-- Splitting the join of newline-free lines restores the lines. -/
theorem splitLines_joinLines : ∀ ls : List Str, ls ≠ [] → (∀ x ∈ ls, '\n' ∉ x) →
    splitLines (joinLines ls) = ls := by
  intro ls
  induction ls with
  | nil => intro h _; exact absurd rfl h
  | cons l ls ih =>
    intro _ hnl
    rcases ls with _ | ⟨l2, ls2⟩
    · exact splitLines_of_no_newline l (hnl l (List.mem_cons_self l []))
    · rw [show joinLines (l :: l2 :: ls2) = l ++ '\n' :: joinLines (l2 :: ls2) from rfl]
      rw [splitLines_append_newline l _ (hnl l (List.mem_cons_self l (l2 :: ls2)))]
      rw [ih (by simp) (fun x hx => hnl x (List.mem_cons.mpr (Or.inr hx)))]

/-- All characters of a string are whitespace. -/
def allWs (w : Str) : Prop := ∀ c ∈ w, jsWs c = true

/-- A string is its whitespace prefix followed by its left-trim. -/
theorem trimLeft_decomp (s : Str) : s = s.takeWhile jsWs ++ trimLeft s :=
  (List.takeWhile_append_dropWhile jsWs s).symm

/-- The whitespace prefix is all whitespace. -/
theorem allWs_takeWhile (s : Str) : allWs (s.takeWhile jsWs) :=
  fun _ hc => List.mem_takeWhile_imp hc

/-- A string is its right-trim followed by its whitespace suffix. -/
theorem trimRight_decomp (s : Str) : s = trimRight s ++ (s.reverse.takeWhile jsWs).reverse := by
  conv_lhs =>
    rw [← List.reverse_reverse s, ← List.takeWhile_append_dropWhile jsWs s.reverse]
  rw [List.reverse_append]
  rfl

/-- The whitespace suffix is all whitespace. -/
theorem allWs_rev_takeWhile (s : Str) : allWs (s.reverse.takeWhile jsWs).reverse :=
  fun _ hc => List.mem_takeWhile_imp (List.mem_reverse.mp hc)

/-- Left trim swallows a leading whitespace character. -/
theorem trimLeft_cons_ws {c : Char} (h : jsWs c = true) (s : Str) :
    trimLeft (c :: s) = trimLeft s := by
  unfold trimLeft
  rw [List.dropWhile_cons_of_pos h]

/-- Trim ignores a leading whitespace character. -/
theorem trim_cons_ws {c : Char} (h : jsWs c = true) (s : Str) :
    trimStr (c :: s) = trimStr s := by
  unfold trimStr
  rw [trimLeft_cons_ws h]

/-- Dropping whitespace from an all-whitespace string leaves nothing. -/
theorem dropWhile_allWs {w : Str} (hw : allWs w) : w.dropWhile jsWs = [] :=
  List.dropWhile_eq_nil_iff.mpr fun c hc => hw c hc

/-- Right trim ignores an appended all-whitespace suffix. -/
theorem trimRight_append_allWs {w : Str} (x : Str) (hw : allWs w) :
    trimRight (x ++ w) = trimRight x := by
  unfold trimRight
  rw [List.reverse_append,
    List.dropWhile_append_of_pos (fun c hc => hw c (List.mem_reverse.mp hc))]

/-- Trim ignores an appended all-whitespace suffix. -/
theorem trim_append_allWs {w : Str} (x : Str) (hw : allWs w) :
    trimStr (x ++ w) = trimStr x := by
  unfold trimStr trimLeft
  rw [List.dropWhile_append]
  by_cases hx : x.dropWhile jsWs = []
  · rw [hx]
    simp only [List.isEmpty_nil, if_true]
    rw [dropWhile_allWs hw]
  · rw [if_neg (by simpa [List.isEmpty_iff] using hx)]
    exact trimRight_append_allWs _ hw

/-- dropWhile is idempotent. -/
theorem dropWhile_idem (p : Char → Bool) (l : Str) :
    (l.dropWhile p).dropWhile p = l.dropWhile p := by
  induction l with
  | nil => rfl
  | cons c cs ih =>
    by_cases h : p c
    · rw [List.dropWhile_cons_of_pos h]; exact ih
    · rw [List.dropWhile_cons_of_neg h, List.dropWhile_cons_of_neg h]

/-- Right trim is idempotent. -/
theorem trimRight_idem (s : Str) : trimRight (trimRight s) = trimRight s := by
  unfold trimRight
  rw [List.reverse_reverse, dropWhile_idem]

/-- A trimmed string has no leading whitespace left to drop. -/
theorem trimLeft_trimStr (s : Str) : trimLeft (trimStr s) = trimStr s := by
  rcases htr : trimStr s with _ | ⟨c, t⟩
  · rfl
  · have hdecomp := trimRight_decomp (trimLeft s)
    have htr2 : trimRight (trimLeft s) = c :: t := htr
    rw [htr2] at hdecomp
    have hfix : (trimLeft s).dropWhile jsWs = trimLeft s := dropWhile_idem jsWs s
    rw [hdecomp] at hfix
    have hc : ¬ jsWs c = true := by
      intro hcw
      rw [show (c :: t) ++ ((trimLeft s).reverse.takeWhile jsWs).reverse
          = c :: (t ++ ((trimLeft s).reverse.takeWhile jsWs).reverse) from rfl,
        List.dropWhile_cons_of_pos hcw] at hfix
      have hlen := congrArg List.length hfix
      have hle : ((t ++ ((trimLeft s).reverse.takeWhile jsWs).reverse).dropWhile jsWs).length
          ≤ (t ++ ((trimLeft s).reverse.takeWhile jsWs).reverse).length :=
        (List.dropWhile_sublist jsWs).length_le
      simp only [List.length_cons] at hlen
      omega
    show trimLeft (c :: t) = c :: t
    unfold trimLeft
    rw [List.dropWhile_cons_of_neg hc]

/-- JavaScript trim is idempotent. -/
theorem trim_idem (s : Str) : trimStr (trimStr s) = trimStr s := by
  rw [show trimStr (trimStr s) = trimRight (trimLeft (trimStr s)) from rfl,
    trimLeft_trimStr, show trimStr s = trimRight (trimLeft s) from rfl, trimRight_idem]

/-- Merge of two line lists across a string append: the last line of the
first list fuses with the first line of the second. -/
def mergeSplit : List Str → List Str → List Str
  | [], ys => ys
  | [x], [] => [x]
  | [x], y :: ys => (x ++ y) :: ys
  | x :: xs, ys => x :: mergeSplit xs ys

/-- Merging distributes over a head of at least two lines. -/
theorem mergeSplit_cons (x x2 : Str) (xs : List Str) (ys : List Str) :
    mergeSplit (x :: x2 :: xs) ys = x :: mergeSplit (x2 :: xs) ys := rfl

/-- The lines of an append are the merge of the two line lists. -/
theorem splitLines_append : ∀ (a b : Str),
    splitLines (a ++ b) = mergeSplit (splitLines a) (splitLines b) := by
  intro a
  induction a with
  | nil =>
    intro b
    rcases hsp : splitLines b with _ | ⟨y, ys⟩
    · exact absurd hsp (splitLines_ne_nil b)
    · rw [show ([] : Str) ++ b = b from rfl, hsp]
      rfl
  | cons c a' ih =>
    intro b
    by_cases h : c = '\n'
    · subst h
      rw [show ('\n' :: a') ++ b = '\n' :: (a' ++ b) from rfl]
      rw [show splitLines ('\n' :: (a' ++ b)) = [] :: splitLines (a' ++ b) from by
        simp [splitLines]]
      rw [show splitLines ('\n' :: a') = [] :: splitLines a' from by simp [splitLines]]
      rw [ih b]
      rcases hsp : splitLines a' with _ | ⟨l, ls⟩
      · exact absurd hsp (splitLines_ne_nil a')
      · rfl
    · rw [show (c :: a') ++ b = c :: (a' ++ b) from rfl]
      rcases hha : splitLines (a' ++ b) with _ | ⟨hab, tab⟩
      · exact absurd hha (splitLines_ne_nil _)
      rcases hsa : splitLines a' with _ | ⟨ha', ta'⟩
      · exact absurd hsa (splitLines_ne_nil _)
      have e1 : splitLines (c :: (a' ++ b)) = (c :: hab) :: tab := by
        rw [splitLines_cons_other c _ h, hha]
      have e2 : splitLines (c :: a') = (c :: ha') :: ta' := by
        rw [splitLines_cons_other c _ h, hsa]
      rw [e1, e2]
      have e3 : mergeSplit (ha' :: ta') (splitLines b) = hab :: tab := by
        rw [← hsa, ← ih b, hha]
      rcases ta' with _ | ⟨t1, t2⟩
      · rcases hsb : splitLines b with _ | ⟨y, ys⟩
        · exact absurd hsb (splitLines_ne_nil b)
        · rw [hsb] at e3
          have e3w : (ha' ++ y) :: ys = hab :: tab := e3
          rw [List.cons.injEq] at e3w
          show (c :: hab) :: tab = ((c :: ha') ++ y) :: ys
          rw [← e3w.1, ← e3w.2]
          rfl
      · have e3w : ha' :: mergeSplit (t1 :: t2) (splitLines b) = hab :: tab := e3
        rw [List.cons.injEq] at e3w
        show (c :: hab) :: tab = (c :: ha') :: mergeSplit (t1 :: t2) (splitLines b)
        rw [← e3w.1, ← e3w.2]

/-- Every line of the first list appears in the merge with an all-whitespace
first line of the second list, up to trim. -/
theorem mem_mergeSplit_exists : ∀ (xs : List Str) (x y : Str) (ys : List Str),
    x ∈ xs → allWs y → ∃ u ∈ mergeSplit xs (y :: ys), trimStr x = trimStr u := by
  intro xs
  induction xs with
  | nil =>
    intro x y ys hx
    simp at hx
  | cons x0 xs ih =>
    intro x y ys hx hy
    rcases xs with _ | ⟨x1, xs'⟩
    · rcases List.mem_cons.mp hx with h1 | h1
      · subst h1
        exact ⟨x ++ y, List.mem_cons_self _ _, (trim_append_allWs x hy).symm⟩
      · simp at h1
    · rw [mergeSplit_cons]
      rcases List.mem_cons.mp hx with h1 | h1
      · subst h1
        exact ⟨x, List.mem_cons_self _ _, rfl⟩
      · obtain ⟨u, hu, ht⟩ := ih x y ys h1 hy
        exact ⟨u, List.mem_cons.mpr (Or.inr hu), ht⟩

/-- Prepending all-whitespace text preserves every line up to trim. -/
theorem lines_exist_ws_prefix : ∀ (w a : Str), allWs w →
    ∀ x ∈ splitLines a, ∃ u ∈ splitLines (w ++ a), trimStr x = trimStr u := by
  intro w
  induction w with
  | nil =>
    intro a _ x hx
    exact ⟨x, hx, rfl⟩
  | cons c w' ih =>
    intro a hw x hx
    have hcw : jsWs c = true := hw c (List.mem_cons_self _ _)
    have hw' : allWs w' := fun d hd => hw d (List.mem_cons.mpr (Or.inr hd))
    obtain ⟨u, hu, ht⟩ := ih a hw' x hx
    by_cases h : c = '\n'
    · subst h
      refine ⟨u, ?_, ht⟩
      rw [show ('\n' :: w') ++ a = '\n' :: (w' ++ a) from rfl]
      rw [show splitLines ('\n' :: (w' ++ a)) = [] :: splitLines (w' ++ a) from by
        simp [splitLines]]
      exact List.mem_cons.mpr (Or.inr hu)
    · rcases hsp : splitLines (w' ++ a) with _ | ⟨l, ls⟩
      · exact absurd hsp (splitLines_ne_nil _)
      · have e1 : splitLines ((c :: w') ++ a) = (c :: l) :: ls := by
          rw [show (c :: w') ++ a = c :: (w' ++ a) from rfl,
            splitLines_cons_other c _ h, hsp]
        rw [hsp] at hu
        rcases List.mem_cons.mp hu with h1 | h1
        · subst h1
          refine ⟨c :: u, ?_, ?_⟩
          · rw [e1]
            exact List.mem_cons_self _ _
          · rw [ht, trim_cons_ws hcw]
        · refine ⟨u, ?_, ht⟩
          rw [e1]
          exact List.mem_cons.mpr (Or.inr h1)

/-- Appending all-whitespace text preserves every line up to trim. -/
theorem lines_exist_ws_suffix (a w : Str) (hw : allWs w) :
    ∀ x ∈ splitLines a, ∃ u ∈ splitLines (a ++ w), trimStr x = trimStr u := by
  intro x hx
  rw [splitLines_append a w]
  rcases hsw : splitLines w with _ | ⟨y, ys⟩
  · exact absurd hsw (splitLines_ne_nil w)
  · have hy : allWs y := fun c hc =>
      hw c (mem_splitLines_chars w y (by rw [hsw]; exact List.mem_cons_self _ _) c hc)
    exact mem_mergeSplit_exists (splitLines a) x y ys hx hy

/-- The keep decision of the cleaner depends only on the trimmed line. -/
theorem keepLine_of_trim_eq {x u : Str} (h : trimStr x = trimStr u) :
    keepLine x = keepLine u := by
  unfold keepLine
  rw [h]

/-- A trimmed string whose every line is kept is a fixed point of the
cleaner. -/
theorem cleanCodeSnippet_fixed (r : Str)
    (hlines : ∀ x ∈ splitLines r, keepLine x = true) (htr : trimStr r = r) :
    cleanCodeSnippet r = r := by
  unfold cleanCodeSnippet cleanKeptLines
  simp only [List.filter_eq_self.mpr hlines, joinLines_splitLines r, htr]
  simp

/-- C9: cleanCodeSnippet is idempotent: applying the classify-and-strip
transformation twice yields the same result as applying it once. -/
theorem cleanCodeSnippet_idempotent (code : Str) :
    cleanCodeSnippet (cleanCodeSnippet code) = cleanCodeSnippet code := by
  by_cases hr : trimStr (joinLines (cleanKeptLines code)) = []
  · by_cases hc : (trimStr code).isEmpty = true
    · have h1 : cleanCodeSnippet code = trimStr (joinLines (cleanKeptLines code)) := by
        unfold cleanCodeSnippet
        simp [hc]
      rw [h1, hr]
      decide
    · have h1 : cleanCodeSnippet code = code := by
        unfold cleanCodeSnippet
        simp [hr, hc]
      rw [h1]
      exact h1
  · have h1 : cleanCodeSnippet code = trimStr (joinLines (cleanKeptLines code)) := by
      unfold cleanCodeSnippet
      simp [hr]
    have hkept : cleanKeptLines code ≠ [] := by
      intro h0
      apply hr
      rw [h0]
      rfl
    have hnl : ∀ x ∈ cleanKeptLines code, '\n' ∉ x := by
      intro x hx
      exact no_newline_mem code x (List.mem_filter.mp hx).1
    have hsplit_j : splitLines (joinLines (cleanKeptLines code)) = cleanKeptLines code :=
      splitLines_joinLines _ hkept hnl
    have hlines : ∀ x ∈ splitLines (trimStr (joinLines (cleanKeptLines code))),
        keepLine x = true := by
      intro x hx
      obtain ⟨u, hu, htu⟩ := lines_exist_ws_suffix
        (trimStr (joinLines (cleanKeptLines code)))
        ((trimLeft (joinLines (cleanKeptLines code))).reverse.takeWhile jsWs).reverse
        (allWs_rev_takeWhile _) x hx
      have hless : trimStr (joinLines (cleanKeptLines code))
          = trimRight (trimLeft (joinLines (cleanKeptLines code))) := rfl
      rw [hless, ← trimRight_decomp (trimLeft (joinLines (cleanKeptLines code)))] at hu
      obtain ⟨v, hv, htv⟩ := lines_exist_ws_prefix
        ((joinLines (cleanKeptLines code)).takeWhile jsWs)
        (trimLeft (joinLines (cleanKeptLines code)))
        (allWs_takeWhile _) u hu
      rw [← trimLeft_decomp (joinLines (cleanKeptLines code))] at hv
      rw [hsplit_j] at hv
      rw [keepLine_of_trim_eq (htu.trans htv)]
      exact (List.mem_filter.mp hv).2
    have key : cleanCodeSnippet (trimStr (joinLines (cleanKeptLines code)))
        = trimStr (joinLines (cleanKeptLines code)) :=
      cleanCodeSnippet_fixed _ hlines (trim_idem _)
    rw [h1]
    exact key
